import Mathlib

/-!
Verification of the skatebench benchmarking harness (TypeScript sources under
src/bench).  The development shallowly embeds the scoring function, the content
signature used for result reuse, the per-suite scheduler that plans reuse and
execute runs, the worker that turns each scheduled run into exactly one result
entry, the worker pool state machine, and the summary aggregation.

Modelling conventions:
- JavaScript strings are modelled by Lean strings; the JS operations trim,
  toLowerCase, includes and lexicographic comparison are re-implemented over
  the underlying character list so that they evaluate inside the kernel.
- JSON.stringify of the fixed-shape normalized signature record is injective
  (key order is fixed and string escaping is injective), so the signature is
  modelled by the normalized record itself: two signature strings are equal
  exactly when the normalized records are equal.
- Numbers that hold costs and rates are modelled by rationals; durations by
  naturals.  Math.round is the round to nearest with half up, as in JS for
  the nonnegative values that occur here.
- The external generateText call is an oracle: a BackendBehavior says when and
  how the call settles.  File system discovery of prior artifacts is an input
  list of StoredFile values, one per parsed JSON file.
-/

namespace Skatebench

/-! ### JS string primitives, embedded over the character list -/

/-- Lexicographic comparison of character lists; models the comparison that
the JS default Array.sort and localeCompare (as used here on ASCII model
names) perform on strings. -/
def charListLe : List Char → List Char → Bool
  | [], _ => true
  | _ :: _, [] => false
  | a :: as, b :: bs => if a < b then true else if b < a then false else charListLe as bs

/-- String comparison used to model JS string sorting. -/
def strLe (a b : String) : Bool := charListLe a.data b.data

/-- The comparison as a relation, for the sorting lemmas. -/
def strLeRel (a b : String) : Prop := strLe a b = true

instance : DecidableRel strLeRel := fun a b => instDecidableEqBool (strLe a b) true

/-- JS String.prototype.trim, modelled with the Lean whitespace predicate. -/
def jsTrim (s : String) : String :=
  ⟨((s.data.dropWhile Char.isWhitespace).reverse.dropWhile Char.isWhitespace).reverse⟩

/-- JS String.prototype.toLowerCase, modelled characterwise. -/
def jsToLower (s : String) : String := ⟨s.data.map Char.toLower⟩

/-- JS String.prototype.includes: sub occurs contiguously inside s. -/
def strIncludes (s sub : String) : Bool := decide (sub.data <:+: s.data)

/-- JS Array.prototype.sort on an array of strings (default comparator). -/
def sortStrings (l : List String) : List String := l.insertionSort strLeRel

/-! ### src/bench/constants.ts -/

def MAX_CONCURRENCY : Nat := 30
def TEST_RUNS_PER_MODEL : Nat := 30
def TIMEOUT_SECONDS : Nat := 200

/-- The timeout handed to setTimeout, in milliseconds. -/
def timeoutMs : Nat := TIMEOUT_SECONDS * 1000

/-- A runnable model; the opaque llm handle is not part of the model, the
scheduler only ever reads the name. -/
structure RunnableModel where
  name : String
deriving DecidableEq

/-! ### src/bench/index.ts : isCorrect -/

/-- isCorrect from src/bench/index.ts lines 80-99: lowercase the response,
fail when some negative answer occurs (lowercased), otherwise succeed exactly
when some expected answer occurs (lowercased).  An absent negative_answers
field skips the negative check, mirroring the JS truthiness test. -/
def isCorrect (answers : List String) (negative_answers : Option (List String))
    (result : String) : Bool :=
  let resultLower := jsToLower result
  match negative_answers with
  | some negs =>
    if negs.any (fun answer => strIncludes resultLower (jsToLower answer)) then false
    else answers.any (fun answer => strIncludes resultLower (jsToLower answer))
  | none => answers.any (fun answer => strIncludes resultLower (jsToLower answer))

/-! ### src/bench/index.ts : computeTestSignature -/

/-- The normalized record that computeTestSignature builds and then feeds to
JSON.stringify.  Since the record shape and key order are fixed, stringify is
injective on it and the record itself models the signature string. -/
structure NormalizedSig where
  system_prompt : String
  prompt : String
  answers : List String
  negative_answers : List String
deriving DecidableEq

/-- The elementwise normalization a.trim().toLowerCase() applied to answers. -/
def normalizeAnswer (a : String) : String := jsToLower (jsTrim a)

/-- computeTestSignature from src/bench/index.ts lines 62-78. -/
def computeTestSignature (system_prompt prompt : String) (answers : List String)
    (negative_answers : Option (List String)) : NormalizedSig :=
  { system_prompt := jsTrim system_prompt
    prompt := jsTrim prompt
    answers := sortStrings (answers.map normalizeAnswer)
    negative_answers := sortStrings ((negative_answers.getD []).map normalizeAnswer) }

/-! ### src/bench/index.ts : findPreviousResultsForSuite -/

/-- One entry collected from a prior run artifact (type PreviousResultEntry
in src/bench/index.ts lines 37-47). -/
structure PreviousResultEntry where
  model : String
  prompt : String
  expectedAnswers : List String
  negativeAnswers : Option (List String)
  text : String
  correct : Option Bool
  duration : Option Nat
  cost : Option ℚ
  sourceFile : String
deriving DecidableEq

/-- One raw result row of a parsed artifact JSON file, with the fields the
loader reads; text stands for extractTextFromStoredResult of the row. -/
structure StoredResult where
  prompt : Option String
  expectedAnswers : Option (List String)
  negativeAnswers : Option (List String)
  model : Option String
  text : Option String
  correct : Option Bool
  duration : Option Nat
  cost : Option ℚ

/-- One discovered artifact JSON file that parsed to an object with a results
array; suiteNameInFile stands for parsed.metadata?.testSuite. -/
structure StoredFile where
  path : String
  suiteNameInFile : Option String
  results : List StoredResult

/-- The suite shape from src/bench/index.ts lines 14-26. -/
structure TestCase where
  prompt : String
  answers : List String
  negative_answers : Option (List String)

structure TestSuite where
  id : Option String
  name : String
  system_prompt : String
  tests : List TestCase

/-- The JS Map from signature to entry list, as a total function defaulting
to the empty list (map.get(sig) || []). -/
def SigMap : Type := NormalizedSig → List PreviousResultEntry

def emptySigMap : SigMap := fun _ => []

/-- map.set(sig, list) after list.push(entry). -/
def sigMapAdd (m : SigMap) (k : NormalizedSig) (e : PreviousResultEntry) : SigMap :=
  fun k2 => if k2 = k then m k ++ [e] else m k2

/-- An optional JS string seen through a truthiness test: undefined and the
empty string are both falsy. -/
def jsTruthyString : Option String → Option String
  | some s => if s = "" then none else some s
  | none => none

/-- Indexing of one stored row, from the loop body of
findPreviousResultsForSuite (src/bench/index.ts lines 240-270): rows missing
prompt, expectedAnswers, model or text (falsy, so also empty strings) are
skipped; otherwise the row is appended under the signature recomputed with
the current suite system prompt. -/
def addStoredResult (system_prompt : String) (file : String) (m : SigMap)
    (r : StoredResult) : SigMap :=
  match jsTruthyString r.prompt with
  | none => m
  | some prompt =>
    match r.expectedAnswers with
    | none => m
    | some expectedAnswers =>
      match jsTruthyString r.model with
      | none => m
      | some model =>
        match jsTruthyString r.text with
        | none => m
        | some text =>
          sigMapAdd m
            (computeTestSignature system_prompt prompt expectedAnswers
              r.negativeAnswers)
            { model := model, prompt := prompt
              expectedAnswers := expectedAnswers
              negativeAnswers := r.negativeAnswers, text := text
              correct := r.correct, duration := r.duration, cost := r.cost
              sourceFile := file }

/-- Processing of one discovered file: files naming a different suite are
skipped (the light filter on parsed.metadata?.testSuite). -/
def addStoredFile (suite : TestSuite) (m : SigMap) (f : StoredFile) : SigMap :=
  match jsTruthyString f.suiteNameInFile with
  | some n =>
    if n ≠ suite.name then m
    else f.results.foldl (addStoredResult suite.system_prompt f.path) m
  | none => f.results.foldl (addStoredResult suite.system_prompt f.path) m

/-- findPreviousResultsForSuite (src/bench/index.ts lines 187-277) over the
already-discovered artifact files. -/
def findPreviousResultsForSuite (suite : TestSuite) (files : List StoredFile) :
    SigMap :=
  files.foldl (addStoredFile suite) emptySigMap

/-! ### src/bench/index.ts : scheduling of test runs -/

/-- A work item of the initial workQueue (one per test and model). -/
structure WorkItem where
  model : RunnableModel
  system_prompt : String
  prompt : String
  answers : List String
  negative_answers : Option (List String)
  originalTestIndex : Nat
deriving DecidableEq

inductive RunType where
  | execute
  | reuse
deriving DecidableEq

/-- A scheduled run (type TestRun in src/bench/index.ts lines 402-412). -/
structure TestRun where
  runType : RunType
  model : RunnableModel
  system_prompt : String
  prompt : String
  answers : List String
  negative_answers : Option (List String)
  runNumber : Nat
  testIndex : Nat
  reuseFrom : Option PreviousResultEntry
deriving DecidableEq

/-- The per-item planning from src/bench/index.ts lines 558-597: look the
signature up, keep prior entries of the same model, schedule
min(TEST_RUNS_PER_MODEL, available) reuse runs with the lowest run numbers
and fill the rest with execute runs. -/
def buildJobsForItem (previousMap : SigMap) (item : WorkItem) : List TestRun :=
  let signature := computeTestSignature item.system_prompt item.prompt item.answers
    item.negative_answers
  let prevForModel := (previousMap signature).filter
    (fun p => p.model == item.model.name)
  let reuseCount := min TEST_RUNS_PER_MODEL prevForModel.length
  ((List.range reuseCount).map fun k =>
    { runType := RunType.reuse, model := item.model
      system_prompt := item.system_prompt, prompt := item.prompt
      answers := item.answers, negative_answers := item.negative_answers
      runNumber := k + 1, testIndex := item.originalTestIndex
      reuseFrom := prevForModel[k]? })
  ++ ((List.range (TEST_RUNS_PER_MODEL - reuseCount)).map fun k =>
    { runType := RunType.execute, model := item.model
      system_prompt := item.system_prompt, prompt := item.prompt
      answers := item.answers, negative_answers := item.negative_answers
      runNumber := reuseCount + (k + 1), testIndex := item.originalTestIndex
      reuseFrom := none })

/-- The comparator of the per-test job sort (src/bench/index.ts lines
600-605): ascending run number, ties by model name. -/
def jobRel (a b : TestRun) : Prop :=
  a.runNumber < b.runNumber ∨
    (a.runNumber = b.runNumber ∧ strLe a.model.name b.model.name = true)

instance : DecidableRel jobRel := fun a b => by
  unfold jobRel
  infer_instance

/-- jobQueue.sort with the comparator above. -/
def sortJobs (l : List TestRun) : List TestRun := l.insertionSort jobRel

/-- The work item pushed on the initial workQueue for one test and model
(src/bench/index.ts lines 389-400). -/
def mkWorkItem (suite : TestSuite) (testIndex : Nat) (test : TestCase)
    (model : RunnableModel) : WorkItem :=
  { model := model, system_prompt := suite.system_prompt, prompt := test.prompt
    answers := test.answers, negative_answers := test.negative_answers
    originalTestIndex := testIndex }

/-- The work items of one test, one per configured model. -/
def itemsForTest (suite : TestSuite) (models : List RunnableModel)
    (testIndex : Nat) (test : TestCase) : List WorkItem :=
  models.map (mkWorkItem suite testIndex test)

/-- The sorted job queue built for one test. -/
def scheduleTest (suite : TestSuite) (models : List RunnableModel)
    (previousMap : SigMap) (testIndex : Nat) (test : TestCase) : List TestRun :=
  sortJobs ((itemsForTest suite models testIndex test).flatMap
    (buildJobsForItem previousMap))

/-- All jobs the runner processes, one test at a time in ascending index
order (src/bench/index.ts lines 548-612). -/
def scheduleSuiteJobs (suite : TestSuite) (models : List RunnableModel)
    (files : List StoredFile) : List TestRun :=
  let previousMap := findPreviousResultsForSuite suite files
  (suite.tests.enum).flatMap fun p => scheduleTest suite models previousMap p.1 p.2

/-- All scheduled runs of one test and one model name: the slice of the
suite schedule the per-test and per-model counting is about. -/
def jobsForTestModel (suite : TestSuite) (models : List RunnableModel)
    (files : List StoredFile) (testIndex : Nat) (modelName : String) :
    List TestRun :=
  (scheduleSuiteJobs suite models files).filter
    (fun j => j.testIndex == testIndex && j.model.name == modelName)

/-! ### src/bench/index.ts : runTest and the worker -/

/-- What the external generateText call yields when it settles. -/
structure GenTextResult where
  text : String
  providerCost : Option ℚ
deriving DecidableEq

inductive GenOutcome where
  | resolve (r : GenTextResult)
  | reject (msg : String)
deriving DecidableEq

/-- Oracle for one model invocation: none means the call never settles,
some (t, out) means it settles after t milliseconds with outcome out. -/
structure BackendBehavior where
  completion : Option (Nat × GenOutcome)
deriving DecidableEq

/-- Cost extraction from providerMetadata (src/bench/index.ts lines 144-154);
the JS truthiness test keeps 0 when the reported cost is 0 or absent. -/
def extractCost (r : GenTextResult) : ℚ :=
  match r.providerCost with
  | some c => if c = 0 then 0 else c
  | none => 0

/-- The value runTest resolves with on success (src/bench/index.ts lines
156-162), restricted to the fields later read. -/
structure RunTestOk where
  model : String
  prompt : String
  text : String
  correct : Bool
  cost : ℚ
deriving DecidableEq

/-- runTest (src/bench/index.ts lines 101-177): the invocation is raced
against a timeout of TIMEOUT_SECONDS seconds; a call that has not settled
before the timer fires loses the race to the rejection with Test timeout. -/
def runTest (model : RunnableModel) (system_prompt prompt : String)
    (answers : List String) (negative_answers : Option (List String))
    (behavior : BackendBehavior) : Except String RunTestOk :=
  match behavior.completion with
  | none => Except.error ("Test timeout")
  | some (t, out) =>
    if t < timeoutMs then
      match out with
      | GenOutcome.resolve r =>
        Except.ok
          { model := model.name, prompt := prompt, text := r.text
            correct := isCorrect answers negative_answers r.text
            cost := extractCost r }
      | GenOutcome.reject msg => Except.error msg
    else Except.error ("Test timeout")

/-- The duration Date.now() - startTime measures for an execute run: the
settling time, capped by the timeout. -/
def measuredDuration (b : BackendBehavior) : Nat :=
  match b.completion with
  | none => timeoutMs
  | some (t, _) => min t timeoutMs

/-- The result payload stored in a results entry: for reuse runs the object
literal of src/bench/index.ts lines 468-473, for execute runs the runTest
value (fields later read). -/
structure ResultPayload where
  text : String
  correct : Bool
  reused : Bool
  sourceFile : Option String
deriving DecidableEq

/-- One entry of the results array (src/bench/index.ts lines 416-427). -/
structure ResultEntry where
  model : String
  testIndex : Nat
  runNumber : Nat
  prompt : String
  expectedAnswers : List String
  negativeAnswers : Option (List String)
  result : Option ResultPayload
  error : Option String
  duration : Nat
  cost : ℚ
deriving DecidableEq

/-- Oracles for one processing pass: the backend behavior of each run, and
the (tiny) measured duration of each reuse run. -/
structure JobEnv where
  behavior : TestRun → BackendBehavior
  reuseDuration : TestRun → Nat

/-- One iteration of the worker loop body (src/bench/index.ts lines 446-535):
a reuse run with a stored entry copies the stored text, rescores it and takes
the stored cost; anything else executes, and a rejection of the race is
recorded as an error entry with cost 0. -/
def processJob (env : JobEnv) (j : TestRun) : ResultEntry :=
  match j.runType, j.reuseFrom with
  | RunType.reuse, some reused =>
    { model := reused.model, testIndex := j.testIndex, runNumber := j.runNumber
      prompt := j.prompt, expectedAnswers := j.answers
      negativeAnswers := j.negative_answers
      result := some
        { text := reused.text
          correct := isCorrect j.answers j.negative_answers reused.text
          reused := true, sourceFile := some reused.sourceFile }
      error := none, duration := env.reuseDuration j, cost := reused.cost.getD 0 }
  | _, _ =>
    match runTest j.model j.system_prompt j.prompt j.answers j.negative_answers
        (env.behavior j) with
    | Except.ok r =>
      { model := j.model.name, testIndex := j.testIndex, runNumber := j.runNumber
        prompt := j.prompt, expectedAnswers := j.answers
        negativeAnswers := j.negative_answers
        result := some
          { text := r.text, correct := r.correct, reused := false
            sourceFile := none }
        error := none, duration := measuredDuration (env.behavior j)
        cost := if r.cost = 0 then 0 else r.cost }
    | Except.error msg =>
      { model := j.model.name, testIndex := j.testIndex, runNumber := j.runNumber
        prompt := j.prompt, expectedAnswers := j.answers
        negativeAnswers := j.negative_answers
        result := none, error := some msg
        duration := measuredDuration (env.behavior j), cost := 0 }

/-- The results processJobQueue appends for a job queue.  Each job is shifted
off the shared queue exactly once by exactly one worker and pushes exactly
one entry; the list is given in schedule order, a permutation of any
interleaved completion order. -/
def processJobQueue (env : JobEnv) (jobQueue : List TestRun) : List ResultEntry :=
  jobQueue.map (processJob env)

/-- All results of one testRunner invocation, in schedule order. -/
def runnerResults (env : JobEnv) (suite : TestSuite) (models : List RunnableModel)
    (files : List StoredFile) : List ResultEntry :=
  let previousMap := findPreviousResultsForSuite suite files
  (suite.tests.enum).flatMap fun p =>
    processJobQueue env (scheduleTest suite models previousMap p.1 p.2)

/-! ### src/bench/index.ts : the worker pool as a state machine -/

/-- State of processJobQueue: the shared queue, one busy flag per spawned
worker, and the activeJobs counter. -/
structure PoolState where
  jobQueue : List TestRun
  workers : List Bool
  activeJobs : Nat

/-- The state right after Array.from spawns min(MAX_CONCURRENCY, queue
length) workers (src/bench/index.ts lines 539-542). -/
def spawnState (q : List TestRun) : PoolState :=
  { jobQueue := q, workers := List.replicate (min MAX_CONCURRENCY q.length) false
    activeJobs := 0 }

/-- Interleaved execution of the workers: an idle worker shifts a job off the
nonempty queue and increments activeJobs; a busy worker finishes its job and
decrements activeJobs in the finally block. -/
inductive PoolStep : PoolState → PoolState → Prop where
  | takeJob (s : PoolState) (i : Nat) (h : i < s.workers.length)
      (hidle : s.workers.get ⟨i, h⟩ = false) (hq : s.jobQueue ≠ []) :
      PoolStep s
        { jobQueue := s.jobQueue.tail, workers := s.workers.set i true
          activeJobs := s.activeJobs + 1 }
  | finishJob (s : PoolState) (i : Nat) (h : i < s.workers.length)
      (hbusy : s.workers.get ⟨i, h⟩ = true) :
      PoolStep s
        { jobQueue := s.jobQueue, workers := s.workers.set i false
          activeJobs := s.activeJobs - 1 }

/-! ### src/bench/index.ts : aggregation and summary -/

/-- r.result?.correct seen through JS truthiness. -/
def entryCorrectFlag (r : ResultEntry) : Bool :=
  match r.result with
  | some p => p.correct
  | none => false

def isErrorEntry (r : ResultEntry) : Bool := r.error.isSome

def isCorrectEntry (r : ResultEntry) : Bool := !r.error.isSome && entryCorrectFlag r

def isIncorrectEntry (r : ResultEntry) : Bool := !r.error.isSome && !entryCorrectFlag r

def correctCount (results : List ResultEntry) : Nat :=
  (results.filter isCorrectEntry).length

def incorrectCount (results : List ResultEntry) : Nat :=
  (results.filter isIncorrectEntry).length

def errorCount (results : List ResultEntry) : Nat :=
  (results.filter isErrorEntry).length

/-- The metadata block written with the results (src/bench/index.ts lines
642-659), counters only. -/
structure RunMetadata where
  totalTests : Nat
  correct : Nat
  incorrect : Nat
  errors : Nat
  successful : Nat
  failed : Nat
deriving DecidableEq

def mkMetadata (results : List ResultEntry) : RunMetadata :=
  { totalTests := results.length
    correct := correctCount results
    incorrect := incorrectCount results
    errors := errorCount results
    successful := correctCount results
    failed := incorrectCount results + errorCount results }

/-- The per-model accumulator of the modelStats reduce (src/bench/index.ts
lines 684-719). -/
structure ModelStats where
  correct : Nat
  incorrect : Nat
  errors : Nat
  totalDuration : Nat
  totalTests : Nat
  totalCost : ℚ
deriving DecidableEq

def emptyStats : ModelStats :=
  { correct := 0, incorrect := 0, errors := 0, totalDuration := 0
    totalTests := 0, totalCost := 0 }

/-- One reduce step of modelStats for an entry of the given model. -/
def updateModelStats (s : ModelStats) (r : ResultEntry) : ModelStats :=
  let s1 : ModelStats :=
    if isErrorEntry r then { s with errors := s.errors + 1 }
    else if entryCorrectFlag r then { s with correct := s.correct + 1 }
    else { s with incorrect := s.incorrect + 1 }
  { s1 with
    totalTests := s1.totalTests + 1
    totalDuration := s1.totalDuration + r.duration
    totalCost := s1.totalCost + r.cost }

/-- The stats record accumulated for one model name: the reduce restricted to
the entries of that model. -/
def statsForModel (results : List ResultEntry) (m : String) : ModelStats :=
  results.foldl (fun s r => if r.model = m then updateModelStats s r else s)
    emptyStats

/-- The model names in first-occurrence order: the key insertion order of the
modelStats record, hence the order Object.entries enumerates. -/
def firstDedupAux (seen : List String) : List String → List String
  | [] => []
  | a :: l =>
    if a ∈ seen then firstDedupAux seen l else a :: firstDedupAux (a :: seen) l

def modelNames (results : List ResultEntry) : List String :=
  firstDedupAux [] (results.map (fun r => r.model))

/-- One element of modelRankings before sorting (src/bench/index.ts lines
722-740). -/
structure ModelRanking where
  model : String
  correct : Nat
  incorrect : Nat
  errors : Nat
  totalTests : Nat
  successRate : ℚ
  errorRate : ℚ
  averageDuration : ℤ
  totalCost : ℚ
  averageCostPerTest : ℚ
deriving DecidableEq

def mkRanking (m : String) (s : ModelStats) : ModelRanking :=
  { model := m, correct := s.correct, incorrect := s.incorrect, errors := s.errors
    totalTests := s.totalTests
    successRate :=
      if s.totalTests > 0 then ((s.correct : ℚ) / (s.totalTests : ℚ)) * 100 else 0
    errorRate :=
      if s.totalTests > 0 then ((s.errors : ℚ) / (s.totalTests : ℚ)) * 100 else 0
    averageDuration :=
      if s.totalTests > 0 then round ((s.totalDuration : ℚ) / (s.totalTests : ℚ))
      else 0
    totalCost := s.totalCost
    averageCostPerTest :=
      if s.totalTests > 0 then s.totalCost / (s.totalTests : ℚ) else 0 }

/-- The comparator of the rankings sort (src/bench/index.ts lines 741-747):
success rate descending, ties by average duration ascending. -/
def rankRel (a b : ModelRanking) : Prop :=
  a.successRate > b.successRate ∨
    (a.successRate = b.successRate ∧ a.averageDuration ≤ b.averageDuration)

instance : DecidableRel rankRel := fun a b => by
  unfold rankRel
  infer_instance

def sortRankings (l : List ModelRanking) : List ModelRanking :=
  l.insertionSort rankRel

/-- modelRankings: stats per model name, mapped to ranking rows, sorted. -/
def modelRankings (results : List ResultEntry) : List ModelRanking :=
  sortRankings ((modelNames results).map fun m => mkRanking m (statsForModel results m))

/-- summaryData.metadata.totalCost (src/bench/index.ts line 762). -/
def totalCostOf (results : List ResultEntry) : ℚ :=
  results.foldl (fun sum r => sum + r.cost) 0

/-- summaryData.metadata.averageCostPerTest (src/bench/index.ts lines
763-767). -/
def averageCostPerTestOf (results : List ResultEntry) : ℚ :=
  if results.length > 0 then totalCostOf results / (results.length : ℚ) else 0

/-! ### Sample data used by the concrete witnesses -/

def wModel : RunnableModel := ⟨"kimi-k2"⟩

def wExecJob : TestRun :=
  { runType := RunType.execute, model := wModel, system_prompt := "s"
    prompt := "p", answers := ["a"], negative_answers := none
    runNumber := 1, testIndex := 0, reuseFrom := none }

def wPrevEntry : PreviousResultEntry :=
  { model := "kimi-k2", prompt := "p", expectedAnswers := ["a"]
    negativeAnswers := none, text := "the a", correct := some false
    duration := some 7, cost := some 2, sourceFile := "f.json" }

def wReuseJob : TestRun :=
  { wExecJob with runType := RunType.reuse, reuseFrom := some wPrevEntry }

/-- An environment in which every invocation hangs forever. -/
def wTimeoutEnv : JobEnv := ⟨fun _ => ⟨none⟩, fun _ => 0⟩

/-- An environment in which every invocation resolves quickly. -/
def wResolveEnv : JobEnv :=
  ⟨fun _ => ⟨some (5, GenOutcome.resolve ⟨"the a", some 2⟩)⟩, fun _ => 0⟩

def wSuite : TestSuite :=
  { id := none, name := "skate", system_prompt := "s"
    tests := [{ prompt := "p", answers := ["a"], negative_answers := none }] }

def wStoredFile : StoredFile :=
  { path := "f.json", suiteNameInFile := some "skate"
    results := [{ prompt := some "p", expectedAnswers := some ["a"]
                  negativeAnswers := none, model := some "kimi-k2"
                  text := some "the a", correct := some false
                  duration := some 7, cost := some 2 }] }

def wItem : WorkItem :=
  { model := wModel, system_prompt := "s", prompt := "p", answers := ["a"]
    negative_answers := none, originalTestIndex := 0 }

/-- The reuse run the scheduler plans for wItem given wStoredFile. -/
def wReuseScheduled : TestRun :=
  { runType := RunType.reuse, model := wModel, system_prompt := "s"
    prompt := "p", answers := ["a"], negative_answers := none
    runNumber := 1, testIndex := 0, reuseFrom := some wPrevEntry }

/-! ### Order properties of the string comparison -/

theorem charListLe_nil (l : List Char) : charListLe [] l = true := by
  cases l <;> rfl

theorem charListLe_cons (a b : Char) (as bs : List Char) :
    charListLe (a :: as) (b :: bs) = true ↔
      a < b ∨ (a = b ∧ charListLe as bs = true) := by
  by_cases h1 : a < b
  · simp [charListLe, h1]
  · by_cases h2 : b < a
    · have hne : a ≠ b := ne_of_gt h2
      simp [charListLe, h1, h2, hne]
    · have heq : a = b := le_antisymm (not_lt.mp h2) (not_lt.mp h1)
      simp [charListLe, h1, h2, heq]

theorem charListLe_total : ∀ l1 l2 : List Char,
    charListLe l1 l2 = true ∨ charListLe l2 l1 = true := by
  intro l1
  induction l1 with
  | nil => intro l2; exact Or.inl (charListLe_nil l2)
  | cons a as ih =>
    intro l2
    cases l2 with
    | nil => exact Or.inr (charListLe_nil (a :: as))
    | cons b bs =>
      rcases lt_trichotomy a b with hab | hab | hab
      · exact Or.inl ((charListLe_cons a b as bs).mpr (Or.inl hab))
      · rcases ih bs with h | h
        · exact Or.inl ((charListLe_cons a b as bs).mpr (Or.inr ⟨hab, h⟩))
        · exact Or.inr ((charListLe_cons b a bs as).mpr (Or.inr ⟨hab.symm, h⟩))
      · exact Or.inr ((charListLe_cons b a bs as).mpr (Or.inl hab))

theorem charListLe_trans : ∀ l1 l2 l3 : List Char,
    charListLe l1 l2 = true → charListLe l2 l3 = true → charListLe l1 l3 = true := by
  intro l1
  induction l1 with
  | nil => intro l2 l3 _ _; exact charListLe_nil l3
  | cons a as ih =>
    intro l2 l3 h12 h23
    cases l2 with
    | nil => simp [charListLe] at h12
    | cons b bs =>
      cases l3 with
      | nil => simp [charListLe] at h23
      | cons c cs =>
        rcases (charListLe_cons a b as bs).mp h12 with hab | ⟨hab, hab2⟩ <;>
          rcases (charListLe_cons b c bs cs).mp h23 with hbc | ⟨hbc, hbc2⟩
        · exact (charListLe_cons a c as cs).mpr (Or.inl (lt_trans hab hbc))
        · exact (charListLe_cons a c as cs).mpr (Or.inl (hbc ▸ hab))
        · exact (charListLe_cons a c as cs).mpr (Or.inl (hab ▸ hbc))
        · exact (charListLe_cons a c as cs).mpr
            (Or.inr ⟨hab.trans hbc, ih bs cs hab2 hbc2⟩)

theorem charListLe_antisymm : ∀ l1 l2 : List Char,
    charListLe l1 l2 = true → charListLe l2 l1 = true → l1 = l2 := by
  intro l1
  induction l1 with
  | nil =>
    intro l2 _ h21
    cases l2 with
    | nil => rfl
    | cons b bs => simp [charListLe] at h21
  | cons a as ih =>
    intro l2 h12 h21
    cases l2 with
    | nil => simp [charListLe] at h12
    | cons b bs =>
      rcases (charListLe_cons a b as bs).mp h12 with hab | ⟨hab, hab2⟩
      · rcases (charListLe_cons b a bs as).mp h21 with hba | ⟨hba, _⟩
        · exact absurd hba (lt_asymm hab)
        · exact absurd (hba ▸ hab) (lt_irrefl b)
      · rcases (charListLe_cons b a bs as).mp h21 with hba | ⟨_, hba2⟩
        · exact absurd (hab ▸ hba) (lt_irrefl b)
        · rw [hab, ih bs hab2 hba2]

instance : IsTotal String strLeRel :=
  ⟨fun a b => charListLe_total a.data b.data⟩

instance : IsTrans String strLeRel :=
  ⟨fun a b c => charListLe_trans a.data b.data c.data⟩

instance : IsAntisymm String strLeRel :=
  ⟨fun a b h1 h2 => String.ext (charListLe_antisymm a.data b.data h1 h2)⟩

/-- A sort with a total antisymmetric comparator is a canonical form: two
lists that are permutations of one another sort to the same list. -/
theorem sortStrings_perm {l1 l2 : List String} (h : l1.Perm l2) :
    sortStrings l1 = sortStrings l2 :=
  List.eq_of_perm_of_sorted
    ((List.perm_insertionSort strLeRel l1).trans
      (h.trans (List.perm_insertionSort strLeRel l2).symm))
    (List.sorted_insertionSort strLeRel l1)
    (List.sorted_insertionSort strLeRel l2)

/-! ### C1 -/

/-- C1: isCorrect returns true exactly when the lowercased response contains
some expected answer lowercased as a substring and contains no negative
answer lowercased as a substring; in particular any negative hit forces a
false result. -/
theorem isCorrect_iff_contains (answers : List String)
    (negative_answers : Option (List String)) (result : String)
    (hne : answers ≠ []) :
    isCorrect answers negative_answers result = true ↔
      ((∃ a ∈ answers, strIncludes (jsToLower result) (jsToLower a) = true) ∧
        ∀ n ∈ negative_answers.getD [],
          strIncludes (jsToLower result) (jsToLower n) = false) := by
  clear hne
  cases negative_answers with
  | none =>
    simp [isCorrect, List.any_eq_true]
  | some negs =>
    by_cases hneg :
        negs.any (fun answer => strIncludes (jsToLower result) (jsToLower answer)) = true
    · rcases List.any_eq_true.mp hneg with ⟨n, hn, hincl⟩
      simp only [isCorrect, hneg, if_true]
      constructor
      · intro hfalse; exact absurd hfalse (by simp)
      · rintro ⟨-, hall⟩
        exact absurd (hall n hn) (by simp [hincl])
    · have hall := List.any_eq_false.mp (Bool.not_eq_true _ ▸ hneg)
      simp only [isCorrect, hneg, Bool.false_eq_true, if_false, List.any_eq_true,
        Option.getD_some]
      constructor
      · intro hsome
        exact ⟨hsome, fun n hn => by simpa using hall n hn⟩
      · rintro ⟨hsome, -⟩; exact hsome

/-- Witness for C1 at a concrete scored response. -/
theorem isCorrect_iff_contains_witness :
    (["Tre Flip", "360 flip"] ≠ ([] : List String)) ∧
      (isCorrect ["Tre Flip", "360 flip"] (some ["360 heelflip"])
          "This is a tre flip" = true ↔
        ((∃ a ∈ ["Tre Flip", "360 flip"],
            strIncludes (jsToLower "This is a tre flip") (jsToLower a) = true) ∧
          ∀ n ∈ (some ["360 heelflip"] : Option (List String)).getD [],
            strIncludes (jsToLower "This is a tre flip") (jsToLower n) = false)) :=
  ⟨by decide,
    isCorrect_iff_contains ["Tre Flip", "360 flip"] (some ["360 heelflip"])
      "This is a tre flip" (by decide)⟩

/-! ### C8 -/

/-- C8: the content signature is invariant under permuting the answers list,
permuting the negative answers list, changing letter case of any answer or
negative answer, adding or removing leading or trailing whitespace on the
system prompt, the prompt, or any answer, and replacing an absent negative
answers list by an empty one: all those differences leave the trimmed
prompts and the normalized answer multisets unchanged, which determines the
signature. -/
theorem computeTestSignature_invariant
    (s1 s2 p1 p2 : String) (ans1 ans2 : List String)
    (neg1 neg2 : Option (List String))
    (hs : jsTrim s1 = jsTrim s2) (hp : jsTrim p1 = jsTrim p2)
    (ha : (ans1.map normalizeAnswer).Perm (ans2.map normalizeAnswer))
    (hn : ((neg1.getD []).map normalizeAnswer).Perm
      ((neg2.getD []).map normalizeAnswer)) :
    computeTestSignature s1 p1 ans1 neg1 = computeTestSignature s2 p2 ans2 neg2 := by
  unfold computeTestSignature
  rw [hs, hp, sortStrings_perm ha, sortStrings_perm hn]

/-- Witness for C8: case, whitespace, order and an absent versus empty
negative list all change, the signature does not. -/
theorem computeTestSignature_invariant_witness :
    (jsTrim " sys" = jsTrim "sys  ") ∧
      (jsTrim "p" = jsTrim " p ") ∧
      ((["A", "b "].map normalizeAnswer).Perm ([" b", "a"].map normalizeAnswer)) ∧
      ((((none : Option (List String)).getD []).map normalizeAnswer).Perm
        (((some [] : Option (List String)).getD []).map normalizeAnswer)) ∧
      computeTestSignature " sys" "p" ["A", "b "] none
        = computeTestSignature "sys  " " p " [" b", "a"] (some []) :=
  ⟨by decide, by decide, by decide, by decide,
    computeTestSignature_invariant " sys" "sys  " "p" " p " ["A", "b "] [" b", "a"]
      none (some []) (by decide) (by decide) (by decide) (by decide)⟩

/-! ### C6 -/

theorem counts_partition (results : List ResultEntry) :
    correctCount results + incorrectCount results + errorCount results
      = results.length := by
  induction results with
  | nil => rfl
  | cons r rs ih =>
    unfold correctCount incorrectCount errorCount at ih ⊢
    by_cases he : r.error.isSome
    · simp only [List.filter, isCorrectEntry, isIncorrectEntry, isErrorEntry, he,
        Bool.not_true, Bool.false_and, List.length_cons]
      omega
    · have he2 : r.error.isSome = false := by simpa using he
      by_cases hc : entryCorrectFlag r
      · simp only [List.filter, isCorrectEntry, isIncorrectEntry, isErrorEntry, he2,
          hc, Bool.not_false, Bool.true_and, Bool.not_true, Bool.and_false,
          List.length_cons]
        omega
      · have hc2 : entryCorrectFlag r = false := by simpa using hc
        simp only [List.filter, isCorrectEntry, isIncorrectEntry, isErrorEntry, he2,
          hc2, Bool.not_false, Bool.true_and, List.length_cons]
        omega

theorem updateModelStats_partition (s : ModelStats) (r : ResultEntry)
    (h : s.correct + s.incorrect + s.errors = s.totalTests) :
    (updateModelStats s r).correct + (updateModelStats s r).incorrect +
      (updateModelStats s r).errors = (updateModelStats s r).totalTests := by
  unfold updateModelStats
  by_cases he : isErrorEntry r <;> by_cases hc : entryCorrectFlag r <;>
    simp [he, hc] <;> omega

theorem statsForModel_partition (results : List ResultEntry) (m : String) :
    (statsForModel results m).correct + (statsForModel results m).incorrect +
      (statsForModel results m).errors = (statsForModel results m).totalTests := by
  unfold statsForModel
  have key : ∀ (l : List ResultEntry) (s : ModelStats),
      s.correct + s.incorrect + s.errors = s.totalTests →
      (l.foldl (fun s r => if r.model = m then updateModelStats s r else s) s).correct
        + (l.foldl (fun s r => if r.model = m then updateModelStats s r else s) s).incorrect
        + (l.foldl (fun s r => if r.model = m then updateModelStats s r else s) s).errors
        = (l.foldl (fun s r => if r.model = m then updateModelStats s r else s) s).totalTests := by
    intro l
    induction l with
    | nil => intro s hs; exact hs
    | cons r rs ih =>
      intro s hs
      by_cases hm : r.model = m
      · simpa [hm] using ih (updateModelStats s r) (updateModelStats_partition s r hs)
      · simpa [hm] using ih s hs
  exact key results emptyStats (by simp [emptyStats])

/-- C6: the aggregated counters partition the results (error entries, correct
entries, all other entries), so correct + incorrect + errors is the total;
the reported successful equals correct and failed equals incorrect + errors;
the same partition holds inside each model accumulator; and each model
success rate is correct over total times 100 when the total is positive and
0 otherwise. -/
theorem aggregation_partitions (results : List ResultEntry) :
    ((mkMetadata results).correct + (mkMetadata results).incorrect +
        (mkMetadata results).errors = (mkMetadata results).totalTests)
    ∧ (mkMetadata results).successful = (mkMetadata results).correct
    ∧ (mkMetadata results).failed =
        (mkMetadata results).incorrect + (mkMetadata results).errors
    ∧ (∀ m : String,
        (statsForModel results m).correct + (statsForModel results m).incorrect +
          (statsForModel results m).errors = (statsForModel results m).totalTests)
    ∧ (∀ m : String,
        (mkRanking m (statsForModel results m)).successRate =
          if (statsForModel results m).totalTests > 0
          then ((statsForModel results m).correct : ℚ) /
              ((statsForModel results m).totalTests : ℚ) * 100
          else 0) := by
  refine ⟨?_, rfl, rfl, fun m => statsForModel_partition results m, fun m => rfl⟩
  simpa [mkMetadata] using counts_partition results

/-! ### C7 -/

theorem totalCostOf_eq_sum (results : List ResultEntry) :
    totalCostOf results = (results.map (fun r => r.cost)).sum := by
  unfold totalCostOf
  have key : ∀ (l : List ResultEntry) (a : ℚ),
      l.foldl (fun sum r => sum + r.cost) a = a + (l.map (fun r => r.cost)).sum := by
    intro l
    induction l with
    | nil => intro a; simp
    | cons r rs ih => intro a; simp [ih, add_assoc]
  simpa using key results 0

/-- C7: an executed run records the provider-reported cost when present and 0
otherwise; every error entry has cost 0; a reuse entry carries the stored
cost (0 when absent); and the summary totalCost is the sum of per-result
costs, with averageCostPerTest that sum over the count when there is at
least one result and 0 otherwise. -/
theorem cost_accounting :
    (∀ r : GenTextResult, extractCost r = r.providerCost.getD 0)
    ∧ (∀ (env : JobEnv) (j : TestRun) (t : Nat) (g : GenTextResult),
        j.reuseFrom = none →
        (env.behavior j).completion = some (t, GenOutcome.resolve g) →
        t < timeoutMs →
        (processJob env j).cost = extractCost g)
    ∧ (∀ (env : JobEnv) (j : TestRun),
        (processJob env j).error.isSome = true → (processJob env j).cost = 0)
    ∧ (∀ (env : JobEnv) (j : TestRun) (e : PreviousResultEntry),
        j.runType = RunType.reuse → j.reuseFrom = some e →
        (processJob env j).cost = e.cost.getD 0)
    ∧ (∀ results : List ResultEntry,
        totalCostOf results = (results.map (fun r => r.cost)).sum
        ∧ averageCostPerTestOf results =
            if results.length > 0
            then (results.map (fun r => r.cost)).sum / (results.length : ℚ)
            else 0) := by
  refine ⟨?_, ?_, ?_, ?_, ?_⟩
  · intro r
    unfold extractCost
    cases hc : r.providerCost with
    | none => rfl
    | some c =>
      by_cases h0 : c = 0
      · simp [h0]
      · simp [h0]
  · intro env j t g hrf hcomp ht
    obtain ⟨rt, mo, sp, pr, ans, negs, rn, ti, rf⟩ := j
    simp only at hrf
    subst hrf
    cases rt <;>
      simp [processJob, runTest, hcomp, ht, extractCost] <;>
      cases g.providerCost <;> simp <;> split <;> simp_all
  · intro env j
    obtain ⟨rt, mo, sp, pr, ans, negs, rn, ti, rf⟩ := j
    cases rt with
    | reuse =>
      cases rf with
      | none =>
        cases hrun : runTest mo sp pr ans negs
            (env.behavior
              ⟨RunType.reuse, mo, sp, pr, ans, negs, rn, ti, none⟩) with
        | ok r => simp [processJob, hrun]
        | error msg => simp [processJob, hrun]
      | some e => simp [processJob]
    | execute =>
      cases hrun : runTest mo sp pr ans negs
          (env.behavior ⟨RunType.execute, mo, sp, pr, ans, negs, rn, ti, rf⟩) with
      | ok r => simp [processJob, hrun]
      | error msg => simp [processJob, hrun]
  · intro env j e hrt hrf
    obtain ⟨rt, mo, sp, pr, ans, negs, rn, ti, rf⟩ := j
    simp only at hrt hrf
    subst hrt
    subst hrf
    simp [processJob]
  · intro results
    refine ⟨totalCostOf_eq_sum results, ?_⟩
    unfold averageCostPerTestOf
    rw [totalCostOf_eq_sum]

/-- Witness for C7 at a concrete hanging invocation and a concrete reuse. -/
theorem cost_accounting_witness :
    ((processJob wTimeoutEnv wExecJob).error.isSome = true) ∧
      ((processJob wTimeoutEnv wExecJob).cost = 0) ∧
      (wReuseJob.runType = RunType.reuse) ∧
      ((processJob wResolveEnv wReuseJob).cost = wPrevEntry.cost.getD 0) :=
  ⟨by decide, cost_accounting.2.2.1 wTimeoutEnv wExecJob (by decide), rfl,
    cost_accounting.2.2.2.1 wResolveEnv wReuseJob wPrevEntry rfl rfl⟩

/-! ### C10 -/

instance : IsTotal ModelRanking rankRel := by
  constructor
  intro a b
  unfold rankRel
  rcases lt_trichotomy a.successRate b.successRate with h | h | h
  · exact Or.inr (Or.inl h)
  · rcases le_total a.averageDuration b.averageDuration with hd | hd
    · exact Or.inl (Or.inr ⟨h, hd⟩)
    · exact Or.inr (Or.inr ⟨h.symm, hd⟩)
  · exact Or.inl (Or.inl h)

instance : IsTrans ModelRanking rankRel := by
  constructor
  intro a b c hab hbc
  unfold rankRel at *
  rcases hab with hab | ⟨hab, hab2⟩ <;> rcases hbc with hbc | ⟨hbc, hbc2⟩
  · exact Or.inl (lt_trans hbc hab)
  · exact Or.inl (hbc ▸ hab)
  · exact Or.inl (hab ▸ hbc)
  · exact Or.inr ⟨hab.trans hbc, le_trans hab2 hbc2⟩

/-- C10: the rankings array is sorted by success rate in descending order,
and two models with equal success rate appear in ascending order of average
duration. -/
theorem modelRankings_sorted (results : List ResultEntry) :
    List.Pairwise
      (fun a b : ModelRanking =>
        a.successRate > b.successRate ∨
          (a.successRate = b.successRate ∧ a.averageDuration ≤ b.averageDuration))
      (modelRankings results) :=
  List.sorted_insertionSort rankRel
    ((modelNames results).map fun m => mkRanking m (statsForModel results m))

/-! ### C9 -/

/-- C9: a reuse run records as its result payload the stored text rescored
with isCorrect against the current expected and negative answers; the
correctness flag stored in the prior artifact has no influence on the
recorded result. -/
theorem reuse_rescores (env : JobEnv) (j : TestRun) (e : PreviousResultEntry)
    (hrt : j.runType = RunType.reuse) (hrf : j.reuseFrom = some e) :
    (processJob env j).result = some
        { text := e.text
          correct := isCorrect j.answers j.negative_answers e.text
          reused := true, sourceFile := some e.sourceFile }
      ∧ ∀ c : Option Bool,
          (processJob env { j with reuseFrom := some { e with correct := c } }).result
            = (processJob env j).result := by
  obtain ⟨rt, mo, sp, pr, ans, negs, rn, ti, rf⟩ := j
  simp only at hrt hrf
  subst hrt
  subst hrf
  exact ⟨rfl, fun c => rfl⟩

/-- Witness for C9 at the concrete reuse run, with a stored flag that claims
the opposite of the recomputed score. -/
theorem reuse_rescores_witness :
    ((processJob wResolveEnv wReuseJob).result = some
        { text := wPrevEntry.text
          correct := isCorrect wReuseJob.answers wReuseJob.negative_answers
            wPrevEntry.text
          reused := true, sourceFile := some wPrevEntry.sourceFile })
      ∧ (processJob wResolveEnv
            { wReuseJob with reuseFrom := some { wPrevEntry with correct := some true } }).result
          = (processJob wResolveEnv wReuseJob).result :=
  ⟨(reuse_rescores wResolveEnv wReuseJob wPrevEntry rfl rfl).1,
    (reuse_rescores wResolveEnv wReuseJob wPrevEntry rfl rfl).2 (some true)⟩

/-! ### C5 -/

/-- C5: the invocation is raced against a TIMEOUT_SECONDS timer and an
invocation that has not settled by then loses the race to the rejection with
message Test timeout; every rejected run is recorded as an error entry with
cost 0 and the measured duration; and each scheduled job yields exactly one
entry, with no retry path. -/
theorem timeout_race_and_error_recording :
    (∀ (model : RunnableModel) (sp pr : String) (ans : List String)
        (negs : Option (List String)) (b : BackendBehavior),
        (∀ t out, b.completion = some (t, out) → timeoutMs ≤ t) →
        runTest model sp pr ans negs b = Except.error ("Test timeout"))
    ∧ (∀ (env : JobEnv) (j : TestRun) (msg : String),
        j.reuseFrom = none →
        runTest j.model j.system_prompt j.prompt j.answers j.negative_answers
            (env.behavior j) = Except.error msg →
        processJob env j =
          { model := j.model.name, testIndex := j.testIndex
            runNumber := j.runNumber, prompt := j.prompt
            expectedAnswers := j.answers, negativeAnswers := j.negative_answers
            result := none, error := some msg
            duration := measuredDuration (env.behavior j), cost := 0 })
    ∧ (∀ (env : JobEnv) (jobs : List TestRun),
        processJobQueue env jobs = jobs.map (processJob env)
        ∧ (processJobQueue env jobs).length = jobs.length) := by
  refine ⟨?_, ?_, fun env jobs => ⟨rfl, by simp [processJobQueue]⟩⟩
  · intro model sp pr ans negs b hlate
    unfold runTest
    cases hc : b.completion with
    | none => rfl
    | some p =>
      obtain ⟨t, out⟩ := p
      have : ¬ t < timeoutMs := not_lt.mpr (hlate t out hc)
      simp [this]
  · intro env j msg hrf hrun
    obtain ⟨rt, mo, sp, pr, ans, negs, rn, ti, rf⟩ := j
    simp only at hrf hrun ⊢
    subst hrf
    cases rt <;> simp [processJob, hrun]

/-- Witness for C5: a hanging invocation times out and is recorded as an
error entry with cost 0 and the timeout duration. -/
theorem timeout_race_witness :
    (runTest wModel "s" "p" ["a"] none ⟨none⟩ = Except.error ("Test timeout"))
      ∧ processJob wTimeoutEnv wExecJob =
          { model := wExecJob.model.name, testIndex := wExecJob.testIndex
            runNumber := wExecJob.runNumber, prompt := wExecJob.prompt
            expectedAnswers := wExecJob.answers
            negativeAnswers := wExecJob.negative_answers
            result := none, error := some ("Test timeout")
            duration := measuredDuration (wTimeoutEnv.behavior wExecJob)
            cost := 0 } :=
  ⟨timeout_race_and_error_recording.1 wModel "s" "p" ["a"] none ⟨none⟩
      (fun t out h => Option.noConfusion h),
    timeout_race_and_error_recording.2.1 wTimeoutEnv wExecJob "Test timeout" rfl
      rfl⟩

/-! ### C3 -/

theorem poolStep_inv {n : Nat} {s s2 : PoolState} (hstep : PoolStep s s2)
    (h1 : s.activeJobs = s.workers.count true) (h2 : s.workers.length = n) :
    s2.activeJobs = s2.workers.count true ∧ s2.workers.length = n := by
  cases hstep with
  | takeJob i h hidle hq =>
    refine ⟨?_, by simpa using h2⟩
    have hget : s.workers[i] = false := by simpa [List.get_eq_getElem] using hidle
    have := List.count_set true true s.workers i h
    simp only [hget] at this
    simp only [this, h1]
    simp
  | finishJob i h hbusy =>
    refine ⟨?_, by simpa using h2⟩
    have hget : s.workers[i] = true := by simpa [List.get_eq_getElem] using hbusy
    have := List.count_set false true s.workers i h
    simp only [hget] at this
    simp only [this, h1]
    simp

theorem pool_reachable_inv (q : List TestRun) (s : PoolState)
    (h : Relation.ReflTransGen PoolStep (spawnState q) s) :
    s.activeJobs = s.workers.count true
      ∧ s.workers.length = min MAX_CONCURRENCY q.length := by
  induction h with
  | refl => exact ⟨by simp [spawnState, List.count_replicate], by simp [spawnState]⟩
  | tail hab hbc ih => exact poolStep_inv hbc ih.1 ih.2

/-- C3: processJobQueue spawns exactly min(MAX_CONCURRENCY, queue length)
workers, and in every reachable state of the pool the number of jobs being
executed concurrently never exceeds MAX_CONCURRENCY. -/
theorem pool_spawn_and_bound (q : List TestRun) (s : PoolState)
    (h : Relation.ReflTransGen PoolStep (spawnState q) s) :
    (spawnState q).workers.length = min MAX_CONCURRENCY q.length
      ∧ s.activeJobs ≤ MAX_CONCURRENCY := by
  obtain ⟨h1, h2⟩ := pool_reachable_inv q s h
  refine ⟨by simp [spawnState], ?_⟩
  calc s.activeJobs = s.workers.count true := h1
    _ ≤ s.workers.length := List.count_le_length _ _
    _ = min MAX_CONCURRENCY q.length := h2
    _ ≤ MAX_CONCURRENCY := min_le_left _ _

/-- Witness for C3 after one worker has taken the only job of a singleton
queue. -/
theorem pool_spawn_and_bound_witness :
    (spawnState [wExecJob]).workers.length = min MAX_CONCURRENCY [wExecJob].length
      ∧ ({ jobQueue := [], workers := [true], activeJobs := 1 } : PoolState).activeJobs
          ≤ MAX_CONCURRENCY :=
  pool_spawn_and_bound [wExecJob] ⟨[], [true], 1⟩
    (Relation.ReflTransGen.single
      (PoolStep.takeJob (spawnState [wExecJob]) 0 (by decide) (by decide) (by decide)))

/-! ### C2 -/

/-- The indexing invariant of the previous-results map: every entry sitting
under a key was indexed under its own recomputed signature. -/
def SigMapIndexed (sp : String) (m : SigMap) : Prop :=
  ∀ (sig : NormalizedSig) (e : PreviousResultEntry), e ∈ m sig →
    computeTestSignature sp e.prompt e.expectedAnswers e.negativeAnswers = sig

theorem sigMapIndexed_empty (sp : String) : SigMapIndexed sp emptySigMap := by
  intro sig e he
  simp [emptySigMap] at he

theorem sigMapIndexed_addStoredResult (sp file : String) (m : SigMap)
    (r : StoredResult) (h : SigMapIndexed sp m) :
    SigMapIndexed sp (addStoredResult sp file m r) := by
  rcases h1 : jsTruthyString r.prompt with - | prompt
  · have heq : addStoredResult sp file m r = m := by
      unfold addStoredResult
      rw [h1]
    rw [heq]
    exact h
  rcases h2 : r.expectedAnswers with - | expectedAnswers
  · have heq : addStoredResult sp file m r = m := by
      unfold addStoredResult
      rw [h1, h2]
    rw [heq]
    exact h
  rcases h3 : jsTruthyString r.model with - | model
  · have heq : addStoredResult sp file m r = m := by
      unfold addStoredResult
      rw [h1, h2, h3]
    rw [heq]
    exact h
  rcases h4 : jsTruthyString r.text with - | text
  · have heq : addStoredResult sp file m r = m := by
      unfold addStoredResult
      rw [h1, h2, h3, h4]
    rw [heq]
    exact h
  have heq : addStoredResult sp file m r =
      sigMapAdd m
        (computeTestSignature sp prompt expectedAnswers r.negativeAnswers)
        { model := model, prompt := prompt, expectedAnswers := expectedAnswers
          negativeAnswers := r.negativeAnswers, text := text
          correct := r.correct, duration := r.duration, cost := r.cost
          sourceFile := file } := by
    unfold addStoredResult
    rw [h1, h2, h3, h4]
  rw [heq]
  intro sig e he
  unfold sigMapAdd at he
  by_cases hk : sig = computeTestSignature sp prompt expectedAnswers r.negativeAnswers
  · rw [if_pos hk] at he
    rcases List.mem_append.mp he with hm | hm
    · rw [hk]
      exact h _ e hm
    · rcases List.mem_singleton.mp hm with rfl
      rw [hk]
  · rw [if_neg hk] at he
    exact h sig e he

theorem sigMapIndexed_foldl_results (sp file : String) (l : List StoredResult) :
    ∀ m : SigMap, SigMapIndexed sp m →
      SigMapIndexed sp (l.foldl (addStoredResult sp file) m) := by
  induction l with
  | nil => intro m h; exact h
  | cons r rs ih =>
    intro m h
    exact ih (addStoredResult sp file m r) (sigMapIndexed_addStoredResult sp file m r h)

theorem sigMapIndexed_addStoredFile (suite : TestSuite) (m : SigMap)
    (f : StoredFile) (h : SigMapIndexed suite.system_prompt m) :
    SigMapIndexed suite.system_prompt (addStoredFile suite m f) := by
  unfold addStoredFile
  split
  · split
    · exact h
    · exact sigMapIndexed_foldl_results suite.system_prompt f.path f.results m h
  · exact sigMapIndexed_foldl_results suite.system_prompt f.path f.results m h

theorem sigMapIndexed_findPrevious (suite : TestSuite) (files : List StoredFile) :
    SigMapIndexed suite.system_prompt (findPreviousResultsForSuite suite files) := by
  unfold findPreviousResultsForSuite
  have key : ∀ (l : List StoredFile) (m : SigMap),
      SigMapIndexed suite.system_prompt m →
      SigMapIndexed suite.system_prompt (l.foldl (addStoredFile suite) m) := by
    intro l
    induction l with
    | nil => intro m h; exact h
    | cons f fs ih =>
      intro m h
      exact ih (addStoredFile suite m f) (sigMapIndexed_addStoredFile suite m f h)
  exact key files emptySigMap (sigMapIndexed_empty suite.system_prompt)

/-- A reuse job planned by buildJobsForItem carries a stored entry that sits
in the map under the item signature, matches the item model name, and the
job repeats the item content with reuse type. -/
theorem buildJobs_reuse_shape (pm : SigMap) (item : WorkItem) (j : TestRun)
    (hmem : j ∈ buildJobsForItem pm item) (hr : j.runType = RunType.reuse) :
    ∃ e : PreviousResultEntry, j.reuseFrom = some e
      ∧ e.model = item.model.name
      ∧ e ∈ pm (computeTestSignature item.system_prompt item.prompt item.answers
          item.negative_answers)
      ∧ j.answers = item.answers ∧ j.negative_answers = item.negative_answers := by
  unfold buildJobsForItem at hmem
  rcases List.mem_append.mp hmem with hm | hm
  · rcases List.mem_map.mp hm with ⟨k, hk, rfl⟩
    have hklt : k <
        ((pm (computeTestSignature item.system_prompt item.prompt item.answers
          item.negative_answers)).filter
          (fun p => p.model == item.model.name)).length :=
      lt_of_lt_of_le (List.mem_range.mp hk) (min_le_right _ _)
    refine ⟨_, List.getElem?_eq_getElem hklt, ?_, ?_, rfl, rfl⟩
    · exact beq_iff_eq.mp (List.mem_filter.mp (List.getElem_mem hklt)).2
    · exact (List.mem_filter.mp (List.getElem_mem hklt)).1
  · rcases List.mem_map.mp hm with ⟨k, hk, rfl⟩
    simp at hr

/-- C2: a run is scheduled as a reuse run only with a stored entry whose
model name equals the run model name and whose indexing signature equals the
signature of the run content; the entry recorded for it takes its text from
the stored response and the processing never consults the backend oracle. -/
theorem reuse_requires_signature_and_model_match
    (suite : TestSuite) (files : List StoredFile) (item : WorkItem)
    (env : JobEnv) (j : TestRun)
    (hmem : j ∈ buildJobsForItem (findPreviousResultsForSuite suite files) item)
    (hr : j.runType = RunType.reuse) :
    ∃ e : PreviousResultEntry, j.reuseFrom = some e
      ∧ e.model = item.model.name
      ∧ computeTestSignature suite.system_prompt e.prompt e.expectedAnswers
          e.negativeAnswers
        = computeTestSignature item.system_prompt item.prompt item.answers
            item.negative_answers
      ∧ (processJob env j).result = some
          { text := e.text
            correct := isCorrect item.answers item.negative_answers e.text
            reused := true, sourceFile := some e.sourceFile }
      ∧ (processJob env j).error = none
      ∧ ∀ env2 : JobEnv, env2.reuseDuration = env.reuseDuration →
          processJob env2 j = processJob env j := by
  obtain ⟨e, hrf, hmodel, hin, hans, hnegs⟩ :=
    buildJobs_reuse_shape (findPreviousResultsForSuite suite files) item j hmem hr
  have hsig := sigMapIndexed_findPrevious suite files _ e hin
  obtain ⟨rt, mo, sp2, pr, ans, negs, rn, ti, rf⟩ := j
  simp only at hr hrf hans hnegs
  subst hr
  subst hrf
  subst hans
  subst hnegs
  exact ⟨e, rfl, hmodel, hsig, rfl, rfl, fun env2 hdur => by simp [processJob, hdur]⟩

/-- Witness for C2: the stored artifact entry for the same suite, prompt,
answers and model is scheduled for reuse. -/
theorem reuse_requires_match_witness :
    (wReuseScheduled ∈ buildJobsForItem
        (findPreviousResultsForSuite wSuite [wStoredFile]) wItem)
      ∧ (wReuseScheduled.runType = RunType.reuse)
      ∧ ∃ e : PreviousResultEntry, wReuseScheduled.reuseFrom = some e
          ∧ e.model = wItem.model.name
          ∧ computeTestSignature wSuite.system_prompt e.prompt e.expectedAnswers
              e.negativeAnswers
            = computeTestSignature wItem.system_prompt wItem.prompt wItem.answers
                wItem.negative_answers :=
  ⟨by decide, rfl, by
    obtain ⟨e, h1, h2, h3, -, -, -⟩ :=
      reuse_requires_signature_and_model_match wSuite [wStoredFile] wItem
        wResolveEnv wReuseScheduled (by decide) rfl
    exact ⟨e, h1, h2, h3⟩⟩

/-! ### C4 -/

theorem filter_flatMap {α β : Type} (l : List α) (f : α → List β) (p : β → Bool) :
    (l.flatMap f).filter p = l.flatMap fun a => (f a).filter p := by
  induction l with
  | nil => rfl
  | cons a t ih => simp only [List.flatMap_cons, List.filter_append, ih]

/-- A flatMap over a list whose elements are told apart by a key collapses
to the contribution of the unique element carrying the key t, when every
other key contributes nothing. -/
theorem flatMap_single_of_key {α β κ : Type} [DecidableEq κ] (L : List α)
    (key : α → κ) (g : α → List β) (t : κ) (x : α)
    (hg : ∀ q ∈ L, key q ≠ t → g q = [])
    (hmem : x ∈ L) (hx : key x = t) (hnd : (L.map key).Nodup) :
    L.flatMap g = g x := by
  induction L with
  | nil => cases hmem
  | cons a l ih =>
    rw [List.flatMap_cons]
    have hnotin : key a ∉ l.map key := by
      rw [List.map_cons] at hnd
      exact (List.nodup_cons.mp hnd).1
    rcases List.mem_cons.mp hmem with rfl | hmem2
    · have hrest : l.flatMap g = [] := by
        rw [List.flatMap_eq_nil_iff]
        intro q hq
        refine hg q (List.mem_cons_of_mem _ hq) ?_
        intro hkq
        exact hnotin (hx ▸ hkq ▸ List.mem_map_of_mem key hq)
      rw [hrest, List.append_nil]
    · have hka : key a ≠ t := by
        intro hk
        refine hnotin ?_
        rw [hk, ← hx]
        exact List.mem_map_of_mem key hmem2
      rw [hg a (List.mem_cons_self a l) hka, List.nil_append]
      refine ih (fun q hq hq2 => hg q (List.mem_cons_of_mem _ hq) hq2) hmem2 ?_
      rw [List.map_cons] at hnd
      exact (List.nodup_cons.mp hnd).2

theorem buildJobsForItem_fields (pm : SigMap) (item : WorkItem) :
    ∀ j ∈ buildJobsForItem pm item,
      j.testIndex = item.originalTestIndex ∧ j.model = item.model := by
  intro j hj
  unfold buildJobsForItem at hj
  rcases List.mem_append.mp hj with hm | hm <;>
    rcases List.mem_map.mp hm with ⟨k, hk, rfl⟩ <;> exact ⟨rfl, rfl⟩

theorem buildJobsForItem_length (pm : SigMap) (item : WorkItem) :
    (buildJobsForItem pm item).length = TEST_RUNS_PER_MODEL := by
  unfold buildJobsForItem
  rw [List.length_append, List.length_map, List.length_map, List.length_range,
    List.length_range]
  omega

theorem range_shift_append (rc N : Nat) (h : rc ≤ N) :
    (List.range rc).map (fun k => k + 1)
      ++ (List.range (N - rc)).map (fun k => rc + (k + 1))
      = List.range' 1 N := by
  have hA : (List.range rc).map (fun k => k + 1) = List.range' 1 rc := by
    rw [List.range'_eq_map_range]
    exact List.map_congr_left fun k _ => Nat.add_comm k 1
  have hB : (List.range (N - rc)).map (fun k => rc + (k + 1))
      = List.range' (1 + 1 * rc) (N - rc) := by
    rw [List.range'_eq_map_range]
    exact List.map_congr_left fun k _ => by omega
  rw [hA, hB, List.range'_append]
  congr 1
  omega

theorem buildJobsForItem_runNumbers (pm : SigMap) (item : WorkItem) :
    (buildJobsForItem pm item).map (fun j => j.runNumber)
      = List.range' 1 TEST_RUNS_PER_MODEL := by
  unfold buildJobsForItem
  rw [List.map_append, List.map_map, List.map_map]
  exact range_shift_append _ _ (min_le_left _ _)

theorem buildJobsForItem_reuse_iff (pm : SigMap) (item : WorkItem) :
    ∃ k : Nat, ∀ j ∈ buildJobsForItem pm item,
      (j.runType = RunType.reuse ↔ j.runNumber ≤ k) := by
  refine ⟨min TEST_RUNS_PER_MODEL
    ((pm (computeTestSignature item.system_prompt item.prompt item.answers
      item.negative_answers)).filter (fun p => p.model == item.model.name)).length,
    ?_⟩
  intro j hj
  unfold buildJobsForItem at hj
  rcases List.mem_append.mp hj with hm | hm <;>
    rcases List.mem_map.mp hm with ⟨k2, hk2, rfl⟩
  · exact ⟨fun _ => List.mem_range.mp hk2, fun _ => rfl⟩
  · constructor
    · intro h
      exact RunType.noConfusion h
    · intro h
      exfalso
      have h2 : min TEST_RUNS_PER_MODEL
          ((pm (computeTestSignature item.system_prompt item.prompt item.answers
            item.negative_answers)).filter (fun p => p.model == item.model.name)).length
            + (k2 + 1)
          ≤ min TEST_RUNS_PER_MODEL
          ((pm (computeTestSignature item.system_prompt item.prompt item.answers
            item.negative_answers)).filter (fun p => p.model == item.model.name)).length :=
        h
      omega

theorem scheduleTest_length (suite : TestSuite) (models : List RunnableModel)
    (pm : SigMap) (tI : Nat) (test : TestCase) :
    (scheduleTest suite models pm tI test).length
      = models.length * TEST_RUNS_PER_MODEL := by
  unfold scheduleTest sortJobs
  rw [List.length_insertionSort, List.length_flatMap]
  unfold itemsForTest
  rw [List.map_map]
  have hconst : List.map ((List.length ∘ buildJobsForItem pm)
        ∘ mkWorkItem suite tI test) models
      = List.replicate models.length TEST_RUNS_PER_MODEL := by
    rw [← List.map_const]
    exact List.map_congr_left fun m _ => buildJobsForItem_length pm _
  rw [hconst, List.sum_replicate, smul_eq_mul]

theorem scheduleTest_testIndex (suite : TestSuite) (models : List RunnableModel)
    (pm : SigMap) (tI : Nat) (test : TestCase) :
    ∀ j ∈ scheduleTest suite models pm tI test, j.testIndex = tI := by
  intro j hj
  unfold scheduleTest sortJobs at hj
  have hj2 : j ∈ (itemsForTest suite models tI test).flatMap (buildJobsForItem pm) :=
    (List.perm_insertionSort jobRel _).mem_iff.mp hj
  rcases List.mem_flatMap.mp hj2 with ⟨item, hitem, hjin⟩
  have hfield := (buildJobsForItem_fields pm item j hjin).1
  unfold itemsForTest at hitem
  rcases List.mem_map.mp hitem with ⟨m, hm, rfl⟩
  exact hfield

/-- The slice of the suite schedule for one test index and one model name is
a permutation of the job list planned for exactly that work item. -/
theorem jobsForTestModel_perm (suite : TestSuite) (models : List RunnableModel)
    (files : List StoredFile) (tI : Nat) (htI : tI < suite.tests.length)
    (model : RunnableModel) (hm : model ∈ models)
    (hnd : (models.map fun m => m.name).Nodup) :
    (jobsForTestModel suite models files tI model.name).Perm
      (buildJobsForItem (findPreviousResultsForSuite suite files)
        (mkWorkItem suite tI (suite.tests.get ⟨tI, htI⟩) model)) := by
  unfold jobsForTestModel
  simp only [scheduleSuiteJobs]
  rw [filter_flatMap]
  have hstep1 : (suite.tests.enum).flatMap
        (fun p => (scheduleTest suite models
          (findPreviousResultsForSuite suite files) p.1 p.2).filter
          (fun j => j.testIndex == tI && j.model.name == model.name))
      = (scheduleTest suite models (findPreviousResultsForSuite suite files) tI
          (suite.tests.get ⟨tI, htI⟩)).filter
          (fun j => j.testIndex == tI && j.model.name == model.name) := by
    have henlen : tI < suite.tests.enum.length := by
      rw [List.enum_length]
      exact htI
    have hmem : (tI, suite.tests.get ⟨tI, htI⟩) ∈ suite.tests.enum := by
      have hx := List.getElem_mem henlen
      rw [List.getElem_enum] at hx
      rw [List.get_eq_getElem]
      exact hx
    refine flatMap_single_of_key suite.tests.enum Prod.fst _ tI
      (tI, suite.tests.get ⟨tI, htI⟩) ?_ hmem rfl ?_
    · intro q hq hq1
      rw [List.filter_eq_nil_iff]
      intro j hjin
      have := scheduleTest_testIndex suite models
        (findPreviousResultsForSuite suite files) q.1 q.2 j hjin
      simp [this, hq1]
    · rw [List.enum_map_fst]
      exact List.nodup_range suite.tests.length
  rw [hstep1]
  unfold scheduleTest sortJobs
  refine ((List.perm_insertionSort jobRel _).filter _).trans ?_
  rw [filter_flatMap]
  have hstep2 : (itemsForTest suite models tI (suite.tests.get ⟨tI, htI⟩)).flatMap
        (fun item => (buildJobsForItem (findPreviousResultsForSuite suite files)
          item).filter (fun j => j.testIndex == tI && j.model.name == model.name))
      = (buildJobsForItem (findPreviousResultsForSuite suite files)
          (mkWorkItem suite tI (suite.tests.get ⟨tI, htI⟩) model)).filter
          (fun j => j.testIndex == tI && j.model.name == model.name) := by
    refine flatMap_single_of_key _ (fun item => item.model.name) _ model.name
      (mkWorkItem suite tI (suite.tests.get ⟨tI, htI⟩) model) ?_ ?_ rfl ?_
    · intro item hitem hname
      rw [List.filter_eq_nil_iff]
      intro j hjin
      have hfield := (buildJobsForItem_fields _ item j hjin).2
      simp [hfield, hname]
    · unfold itemsForTest
      exact List.mem_map_of_mem _ hm
    · unfold itemsForTest
      rw [List.map_map]
      exact hnd
  rw [hstep2]
  have hall : ∀ j ∈ buildJobsForItem (findPreviousResultsForSuite suite files)
      (mkWorkItem suite tI (suite.tests.get ⟨tI, htI⟩) model),
      (j.testIndex == tI && j.model.name == model.name) = true := by
    intro j hjin
    have h1 := (buildJobsForItem_fields _ _ j hjin).1
    have h2 := (buildJobsForItem_fields _ _ j hjin).2
    simp [h1, h2, mkWorkItem]
  rw [List.filter_eq_self.mpr hall]

/-- Each worker iteration pushes exactly one entry, and that entry is either
an error entry or an entry with a result payload, never both. -/
theorem processJob_shape (env : JobEnv) (j : TestRun) :
    ((∃ msg, (processJob env j).error = some msg) ∧ (processJob env j).result = none)
    ∨ ((∃ p, (processJob env j).result = some p) ∧ (processJob env j).error = none) := by
  obtain ⟨rt, mo, sp, pr, ans, negs, rn, ti, rf⟩ := j
  cases rt with
  | reuse =>
    cases rf with
    | some e => exact Or.inr ⟨⟨_, rfl⟩, rfl⟩
    | none =>
      cases hrun : runTest mo sp pr ans negs
          (env.behavior ⟨RunType.reuse, mo, sp, pr, ans, negs, rn, ti, none⟩) with
      | ok r =>
        have hres : (processJob env
            ⟨RunType.reuse, mo, sp, pr, ans, negs, rn, ti, none⟩).result
            = some { text := r.text, correct := r.correct, reused := false
                     sourceFile := none } := by
          simp [processJob, hrun]
        exact Or.inr ⟨⟨_, hres⟩, by simp [processJob, hrun]⟩
      | error msg =>
        refine Or.inl ⟨⟨msg, ?_⟩, ?_⟩ <;> simp [processJob, hrun]
  | execute =>
    cases hrun : runTest mo sp pr ans negs
        (env.behavior ⟨RunType.execute, mo, sp, pr, ans, negs, rn, ti, rf⟩) with
    | ok r =>
      have hres : (processJob env
          ⟨RunType.execute, mo, sp, pr, ans, negs, rn, ti, rf⟩).result
          = some { text := r.text, correct := r.correct, reused := false
                   sourceFile := none } := by
        simp [processJob, hrun]
      exact Or.inr ⟨⟨_, hres⟩, by simp [processJob, hrun]⟩
    | error msg =>
      refine Or.inl ⟨⟨msg, ?_⟩, ?_⟩ <;> simp [processJob, hrun]

theorem runnerResults_eq_map (env : JobEnv) (suite : TestSuite)
    (models : List RunnableModel) (files : List StoredFile) :
    runnerResults env suite models files
      = (scheduleSuiteJobs suite models files).map (processJob env) := by
  simp only [runnerResults, scheduleSuiteJobs, processJobQueue]
  rw [List.map_flatMap]

theorem scheduleSuiteJobs_length (suite : TestSuite) (models : List RunnableModel)
    (files : List StoredFile) :
    (scheduleSuiteJobs suite models files).length
      = suite.tests.length * (models.length * TEST_RUNS_PER_MODEL) := by
  simp only [scheduleSuiteJobs]
  rw [List.length_flatMap]
  have hconst : List.map (List.length ∘ fun p : Nat × TestCase =>
        scheduleTest suite models (findPreviousResultsForSuite suite files) p.1 p.2)
        suite.tests.enum
      = List.replicate suite.tests.enum.length
        (models.length * TEST_RUNS_PER_MODEL) := by
    rw [← List.map_const]
    exact List.map_congr_left fun p _ => scheduleTest_length suite models _ p.1 p.2
  rw [hconst, List.sum_replicate, smul_eq_mul, List.enum_length]

/-- C4: for every test and every configured model the scheduler plans exactly
TEST_RUNS_PER_MODEL runs carrying the run numbers 1 through
TEST_RUNS_PER_MODEL, with the reuse runs at the low run numbers and the rest
as execute runs; every scheduled run contributes exactly one result entry (an
error entry or an entry with a payload), so the completed results list has
tests times models times TEST_RUNS_PER_MODEL entries. -/
theorem scheduled_runs_and_results_count
    (env : JobEnv) (suite : TestSuite) (models : List RunnableModel)
    (files : List StoredFile)
    (hnd : (models.map fun m => m.name).Nodup) :
    (∀ tI : Nat, ∀ htI : tI < suite.tests.length, ∀ model ∈ models,
      ((jobsForTestModel suite models files tI model.name).map
          (fun j => j.runNumber)).Perm (List.range' 1 TEST_RUNS_PER_MODEL)
      ∧ ∃ k : Nat, ∀ j ∈ jobsForTestModel suite models files tI model.name,
          (j.runType = RunType.reuse ↔ j.runNumber ≤ k))
    ∧ runnerResults env suite models files
        = (scheduleSuiteJobs suite models files).map (processJob env)
    ∧ (∀ r ∈ runnerResults env suite models files,
        ((∃ msg, r.error = some msg) ∧ r.result = none)
        ∨ ((∃ p, r.result = some p) ∧ r.error = none))
    ∧ (runnerResults env suite models files).length
        = suite.tests.length * models.length * TEST_RUNS_PER_MODEL := by
  refine ⟨?_, runnerResults_eq_map env suite models files, ?_, ?_⟩
  · intro tI htI model hm
    have hperm := jobsForTestModel_perm suite models files tI htI model hm hnd
    constructor
    · have := hperm.map (fun j => j.runNumber)
      rw [buildJobsForItem_runNumbers] at this
      exact this
    · obtain ⟨k, hk⟩ := buildJobsForItem_reuse_iff
        (findPreviousResultsForSuite suite files)
        (mkWorkItem suite tI (suite.tests.get ⟨tI, htI⟩) model)
      exact ⟨k, fun j hj => hk j (hperm.mem_iff.mp hj)⟩
  · intro r hr
    rw [runnerResults_eq_map env suite models files] at hr
    rcases List.mem_map.mp hr with ⟨j, hj, rfl⟩
    exact processJob_shape env j
  · rw [runnerResults_eq_map env suite models files, List.length_map,
      scheduleSuiteJobs_length, Nat.mul_assoc]

/-- Witness for C4 on the one-test one-model suite with one stored artifact
entry: the single slice carries run numbers 1 through TEST_RUNS_PER_MODEL. -/
theorem scheduled_runs_count_witness :
    (([wModel].map fun m => m.name).Nodup)
      ∧ (0 < wSuite.tests.length)
      ∧ wModel ∈ [wModel]
      ∧ ((jobsForTestModel wSuite [wModel] [wStoredFile] 0 wModel.name).map
          (fun j => j.runNumber)).Perm (List.range' 1 TEST_RUNS_PER_MODEL)
      ∧ (runnerResults wResolveEnv wSuite [wModel] [wStoredFile]).length
          = wSuite.tests.length * [wModel].length * TEST_RUNS_PER_MODEL :=
  ⟨by decide, by decide, by decide,
    ((scheduled_runs_and_results_count wResolveEnv wSuite [wModel] [wStoredFile]
      (by decide)).1 0 (by decide) wModel (by decide)).1,
    (scheduled_runs_and_results_count wResolveEnv wSuite [wModel] [wStoredFile]
      (by decide)).2.2.2⟩

end Skatebench
